import Mathlib

/-!
Shallow embedding of the riscv-sbi-baremetal boot image (src/main.rs and
src/start.rs) and proofs of the spec claims about it.

Modelling conventions:
- RISC-V registers are 64-bit; register arithmetic is `Nat` taken `% 2^64`.
- The firmware (SBI) surface is two calls: `console_write` (best effort) and
  `hart_start` (fallible, modelled by a `fw : Nat → Bool` success oracle).
- The atomic `compare_exchange` on `STARTED` is SeqCst, hence linearizable:
  a run of N racing cores is modelled by the arrival order in which their
  exchanges take effect, an arbitrary list of core ids.
-/

namespace RiscvSbi

/-! ### Build-time constants (src/start.rs) -/

/-- `const NCPU: usize = 3;` — hard-coded number of CPUs (start.rs). -/
def NCPU : Nat := 3

/-- `const STKSZ: usize = 1024 * 64;` — per-hart stack size (start.rs). -/
def STKSZ : Nat := 1024 * 64

/-- Register width of RV64: values wrap modulo `2 ^ 64` (the literal below). -/
def WORD : Nat := 18446744073709551616

/-! ### BootFlag: `static STARTED: AtomicBool = AtomicBool::new(false)` (main.rs)

`STARTED.compare_exchange(false, true, SeqCst, SeqCst)` observes the prior
value and leaves the flag `true` in either case (it writes `true` exactly when
the prior value was `false`, and a failed exchange means it was already
`true`). -/

/-- One `compare_exchange(false, true, ...)` on the flag: the pair is
(observed prior value, new flag value). -/
def compareExchange (flag : Bool) : Bool × Bool := (flag, true)

/-- Observations of the racing cores, processed in arrival order: each core is
paired with the prior flag value its exchange observed. -/
def bootObservations : List Nat → Bool → List (Nat × Bool)
  | [], _ => []
  | c :: rest, flag => (c, (compareExchange flag).1) :: bootObservations rest (compareExchange flag).2

/-! ### StackPool: `static mut STACK0: StaticStack` (start.rs)

`StaticStack([u8; STKSZ * NCPU])` with `repr(align(16))`: a contiguous pool of
`STKSZ * NCPU` bytes whose base address is 16-byte aligned. `_start` sets
hart `h`'s stack pointer to `base + (h + 1) * STKSZ`. -/

/-- Lower end of the spec's stack slice for core `h`: `base + (h+1)*S`. -/
def sliceLo (base h : Nat) : Nat := base + (h + 1) * STKSZ

/-- Upper end of the spec's stack slice for core `h`: `base + (h+2)*S`. -/
def sliceHi (base h : Nat) : Nat := base + (h + 2) * STKSZ

/-- One-past-the-end of the statically reserved pool `STACK0`. -/
def poolHi (base : Nat) : Nat := base + STKSZ * NCPU

/-- The half-open slices of cores `h` and `h'` do not overlap. -/
def slicesDisjoint (base h hp : Nat) : Prop :=
  sliceHi base h ≤ sliceLo base hp ∨ sliceHi base hp ≤ sliceLo base h

/-- The spec's slice `[base+(h+1)*S, base+(h+2)*S)` lies inside the pool
`[base, base + STKSZ*NCPU)`. -/
def sliceWithinPool (base h : Nat) : Prop :=
  base ≤ sliceLo base h ∧ sliceHi base h ≤ poolHi base

/-! ### EntryStub: `_start` (src/start.rs)

The body of `_start` is a fixed asm sequence over registers `a0` (hartid),
`a1` (dtb pointer), scratch `a2`/`a3`, and `sp`, followed by `call main` and a
self-jump `1: j 1b` in case `main` ever returns. We embed it as a small
register machine executing that exact instruction list. -/

/-- Register state of a hart running `_start` (RV64, values `< 2^64`),
plus a program counter indexing into the instruction list. -/
structure Regs where
  a0 : Nat
  a1 : Nat
  a2 : Nat
  a3 : Nat
  sp : Nat
  pc : Nat
deriving DecidableEq

/-- The instructions appearing in `_start`'s asm block. -/
inductive Instr where
  /-- `la sp, {stack0}` — load the address of `STACK0` into `sp`. -/
  | laSp (sym : Nat)
  /-- `li a2, {stksz}` — load the immediate `STKSZ` into `a2`. -/
  | liA2 (imm : Nat)
  /-- `addi a3, a0, imm` — `a3 := a0 + imm` (wrapping). -/
  | addiA3A0 (imm : Nat)
  /-- `mul a2, a2, a3` — `a2 := a2 * a3` (wrapping). -/
  | mulA2A2A3
  /-- `add sp, sp, a2` — `sp := sp + a2` (wrapping). -/
  | addSpSpA2
  /-- `call main` — transfer to `main(a0, a1)`; resumes at the next pc if it returns. -/
  | callMain
  /-- `1: j 1b` — jump to itself: the pc does not advance. -/
  | jSelf
deriving DecidableEq

/-- The instruction sequence of `_start`, parametrised by the link-time
address of `STACK0`. -/
def startCode (stack0 : Nat) : List Instr :=
  [.laSp stack0, .liA2 STKSZ, .addiA3A0 1, .mulA2A2A3, .addSpSpA2, .callMain, .jSelf]

/-- Effect of one instruction on the register state. -/
def execInstr : Instr → Regs → Regs
  | .laSp s, r => { r with sp := s % WORD, pc := r.pc + 1 }
  | .liA2 i, r => { r with a2 := i % WORD, pc := r.pc + 1 }
  | .addiA3A0 i, r => { r with a3 := (r.a0 + i) % WORD, pc := r.pc + 1 }
  | .mulA2A2A3, r => { r with a2 := r.a2 * r.a3 % WORD, pc := r.pc + 1 }
  | .addSpSpA2, r => { r with sp := (r.sp + r.a2) % WORD, pc := r.pc + 1 }
  | .callMain, r => { r with pc := r.pc + 1 }
  | .jSelf, r => r

/-- One machine step of `_start`: execute the instruction at the pc. -/
def step (stack0 : Nat) (r : Regs) : Regs :=
  match (startCode stack0).get? r.pc with
  | some i => execInstr i r
  | none => r

/-- `n` machine steps of `_start`. -/
def runSteps (stack0 : Nat) : Nat → Regs → Regs
  | 0, r => r
  | n + 1, r => runSteps stack0 n (step stack0 r)

/-- Initial state of a hart entering `_start`: firmware delivers the hartid in
`a0` and the dtb pointer in `a1`; the other registers are arbitrary (zeroed
here), and execution begins at the first instruction. -/
def startEntry (hartid dtb : Nat) : Regs :=
  ⟨hartid, dtb, 0, 0, 0, 0⟩

/-! ### HartLauncher: `start_harts` (src/main.rs)

`start_harts(boothartid)` loops `h` over `0..NCPU.load(..)` and, for each
`h != boothartid`, issues `sbi_rt::hart_start(h, _start as usize, 0)`; a
failed `hart_start` panics with `"Failed to start hart {h}"` and ends the
loop. We model the SBI call's outcome by a success oracle `fw`. -/

/-- One `hart_start(hartid, start_addr, opaque_word)` request as issued to the
firmware; `aux` is the opaque third argument. -/
structure HartStartReq where
  hartid : Nat
  startAddr : Nat
  aux : Nat
deriving DecidableEq

/-- The loop body of `start_harts` over the remaining hart ids: returns the
requests issued, and `some msg` when a failed wake aborted the loop with a
panic. -/
def wakeLoop (fw : Nat → Bool) (boothartid startAddr : Nat) :
    List Nat → List HartStartReq × Option String
  | [] => ([], none)
  | h :: hs =>
    if h ≠ boothartid then
      if fw h then
        let rest := wakeLoop fw boothartid startAddr hs
        (⟨h, startAddr, 0⟩ :: rest.1, rest.2)
      else
        ([⟨h, startAddr, 0⟩], some ("Failed to start hart " ++ toString h))
    else
      wakeLoop fw boothartid startAddr hs

/-- `start_harts`: iterate the wake loop over `0..ncpu` (the core count read
back from the `NCPU` atomic, stored by `handle_dtb`). -/
def start_harts (fw : Nat → Bool) (boothartid ncpu startAddr : Nat) :
    List HartStartReq × Option String :=
  wakeLoop fw boothartid startAddr (List.range ncpu)

/-! ### DescriptorStore: `DEVTREE: Once<Fdt>` and `handle_dtb` (src/main.rs)

The binary decoding of the device-tree blob is the external `fdt` crate's
capability; we model a parsed `Fdt` by the three pieces of data the program
consults, and the parse itself by an oracle `parse : Nat → Option Fdt` from
the pointer value (`Fdt::from_ptr` returning `Err` is `none`). -/

/-- One memory region of the device tree (start address and size). -/
structure MemoryRegion where
  starting_address : Nat
  size : Nat
deriving DecidableEq

/-- The parsed device tree, restricted to what the program reads: the root
`model` string, the enumerated cpu entries, and the memory region list. -/
structure Fdt where
  model : String
  cpus : List Nat
  memoryRegions : List MemoryRegion
deriving DecidableEq

/-- An externally observable action of the boot sequence: a console write
(identified by its text) or a `hart_start` firmware request. -/
inductive Effect where
  | consoleWrite (msg : String)
  | hartStart (req : HartStartReq)
deriving DecidableEq

/-- Body of `handle_dtb` after the parse succeeded: extract model / cpu count /
first memory region (panicking with `"Unable to locate DRAM start"` when the
region list is empty, before any of the four prints), emit the four debug
prints, and return the cpu count stored into the `NCPU` atomic. -/
def handle_dtb (dt : Fdt) : Except String (List Effect × Nat) :=
  match dt.memoryRegions.head?.map MemoryRegion.starting_address with
  | none => .error "Unable to locate DRAM start"
  | some mem =>
    .ok ([Effect.consoleWrite "Device tree info:\n",
          Effect.consoleWrite ("Model: " ++ dt.model ++ "\n"),
          Effect.consoleWrite ("No. CPUs: " ++ toString dt.cpus.length ++ "\n"),
          Effect.consoleWrite ("DRAM start: " ++ toString mem ++ "\n")],
         dt.cpus.length)

/-- The three banner prints at the top of `main`'s boot-hart branch. -/
def bannerEffects (hartid : Nat) : List Effect :=
  [Effect.consoleWrite "\n\n\n",
   Effect.consoleWrite "Hack the planet!\n",
   Effect.consoleWrite ("Boot hart: " ++ toString hartid ++ "\n\n")]

/-- The boot-hart branch of `main` (the `Ok(_)` arm of the `STARTED` exchange):
banner, `handle_dtb(dtb)` (with `DEVTREE` still uninitialised, so the parse
runs here), a blank line, then `start_harts(hartid)`. Returns the effect trace
and `some msg` when the branch panicked with message `msg` (a failed parse,
a missing memory region, or a failed wake). -/
def mainBoot (parse : Nat → Option Fdt) (fw : Nat → Bool) (sa hartid dtb : Nat) :
    List Effect × Option String :=
  match parse dtb with
  | none => (bannerEffects hartid, some "Unable to parse device tree")
  | some dt =>
    match handle_dtb dt with
    | .error e => (bannerEffects hartid, some e)
    | .ok (es, ncpus) =>
      let w := start_harts fw hartid ncpus sa
      (bannerEffects hartid ++ es ++ [Effect.consoleWrite "\n"]
        ++ w.1.map Effect.hartStart, w.2)

/-- State of the `DEVTREE: Once<Fdt>` cell, instrumented with the number of
times the underlying parse capability has been invoked. -/
structure OnceState where
  cache : Option Fdt
  parses : Nat
deriving DecidableEq

/-- `DEVTREE.call_once(|| Fdt::from_ptr(ptr).expect(..))` as performed by
`handle_dtb`: an initialised cell returns its cached value untouched; an empty
cell runs the parse (counted), caching on success and panicking (`.error`,
which never returns control) on failure. -/
def resolve (parse : Nat → Option Fdt) (s : OnceState) (ptr : Nat) :
    Except String Fdt × OnceState :=
  match s.cache with
  | some dt => (.ok dt, s)
  | none =>
    match parse ptr with
    | some dt => (.ok dt, ⟨some dt, s.parses + 1⟩)
    | none => (.error "Unable to parse device tree", ⟨none, s.parses + 1⟩)

/-- A sequence of `resolve` calls with the given pointer arguments, threading
the cell's state; a panic ends the sequence (the core halts). -/
def resolveSeq (parse : Nat → Option Fdt) (s : OnceState) : List Nat → OnceState
  | [] => s
  | p :: ps =>
    match resolve parse s p with
    | (.ok _, s2) => resolveSeq parse s2 ps
    | (.error _, s2) => s2

/-! ### ConsoleReporter: the `debug_print!` macro (src/main.rs)

`debug_print!` renders into `message: String<0xFF>` (a heapless string over a
255-byte buffer) via `core::fmt::Write`, ignoring the `fmt` error, then issues
`sbi_rt::console_write(Physical::new(message.len(), message.as_ptr(), 0))`.
The formatting machinery delivers the output as a sequence of string chunks;
heapless `write_str`/`push_str` appends a chunk only when it fits entirely in
the remaining capacity and otherwise leaves the buffer unchanged and reports
an (ignored) error. Buffer contents are modelled as byte lists. -/

/-- Capacity of the `debug_print!` buffer: `String<0xFF>`. -/
def CONSOLE_CAP : Nat := 0xFF

/-- heapless `write_str` on a `String<0xFF>`: append the chunk if it fits in
full, else leave the buffer unchanged (the error is discarded). -/
def write_str (buf chunk : List Nat) : List Nat :=
  if buf.length + chunk.length ≤ CONSOLE_CAP then buf ++ chunk else buf

/-- The buffer contents after `write!` has fed all chunks of the rendered
message into the initially empty buffer. -/
def renderMessage (chunks : List (List Nat)) : List Nat :=
  chunks.foldl write_str []

/-- The `Physical` triple passed to `sbi_rt::console_write`:
`(num_bytes, base_addr_lo, base_addr_hi)`. -/
structure Physical where
  num_bytes : Nat
  base_addr_lo : Nat
  base_addr_hi : Nat
deriving DecidableEq

/-- `debug_print!`: render the chunks, then request a console write of
`message.len()` bytes at the buffer's address, with `base_addr_hi = 0`.
The request is issued unconditionally (a formatting overflow is not an
error path). -/
def debug_print (chunks : List (List Nat)) (addr : Nat) : Physical :=
  ⟨(renderMessage chunks).length, addr, 0⟩

/-! ### PanicReporter: the `panic` handler (src/main.rs) -/

/-- A `core::panic::Location`: source file and line. -/
structure Location where
  file : String
  line : Nat
deriving DecidableEq

/-- The `PanicInfo` a panic handler receives: a message and an optional
source location. -/
structure PanicInfo where
  message : String
  location : Option Location
deriving DecidableEq

/-- `info.location().map(|loc| loc.file()).unwrap_or("{unknown}")`. -/
def panicFile (info : PanicInfo) : String :=
  (info.location.map Location.file).getD "\x7bunknown\x7d"

/-- `info.location().map(|loc| loc.line()).unwrap_or(0)`. -/
def panicLine (info : PanicInfo) : Nat :=
  (info.location.map Location.line).getD 0

/-- The console messages the panic handler emits (the single
`debug_print!("{} in {} at line {}\n", ..)` call's rendered text). -/
def panicEmits (info : PanicInfo) : List String :=
  [info.message ++ " in " ++ panicFile info ++ " at line "
    ++ toString (panicLine info) ++ "\n"]

end RiscvSbi

namespace RiscvSbi

/-! ### Claim C1 -/

/-- Helper: once the flag is `true`, every later exchange observes `true`. -/
theorem bootObservations_true (l : List Nat) :
    bootObservations l true = l.map (fun c => (c, true)) := by
  induction l with
  | nil => rfl
  | cons c rest ih => simp [bootObservations, compareExchange, ih]

/-- C1: for any arrival order `c :: rest` of the racing cores' boot-flag
exchanges (flag initially `false`), the first arrival observes prior value
`false`, every other core observes prior value `true`, and exactly one
observation in the whole run is `false`. -/
theorem boot_exchange_unique_winner (c : Nat) (rest : List Nat) :
    bootObservations (c :: rest) false = (c, false) :: rest.map (fun i => (i, true)) ∧
    ((bootObservations (c :: rest) false).filter (fun p => !p.2)).length = 1 := by
  have h : bootObservations (c :: rest) false
      = (c, false) :: rest.map (fun i => (i, true)) := by
    simp [bootObservations, compareExchange, bootObservations_true]
  refine ⟨h, ?_⟩
  rw [h]
  simp [List.filter_map, List.filter_eq_nil_iff]

/-! ### Claim C2 -/

/-- C2 as frozen is false: core `2`'s slice `[base+3*S, base+4*S)` does not lie
within the pool `[base, base+3*S)` — shown here at `base = 0`, `h = 2`
(with `2 < NCPU`). -/
theorem slice_within_pool_counterexample :
    2 < NCPU ∧ ¬ sliceWithinPool 0 2 := by
  constructor
  · decide
  · intro h
    have := h.2
    simp [sliceHi, poolHi, STKSZ, NCPU] at this

/-- C2 (amended): for every core id `h < NCPU` and distinct `h' < NCPU`, the
slices `[base+(h+1)*S, base+(h+2)*S)` are pairwise disjoint and `sliceLo`
is 16-byte aligned (given the `repr(align(16))` base). The downward-growing
stack region `[base + h*S, base + (h+1)*S)` below the stack top lies within
the reserved pool, and the stack top itself never exceeds the pool's end;
the slice above the top, however, is within the pool only for `h < NCPU - 1`. -/
theorem stack_slices_disjoint_aligned (base h hp : Nat)
    (hbase : 16 ∣ base) (hh : h < NCPU) (hhp : hp < NCPU) (hne : h ≠ hp) :
    slicesDisjoint base h hp ∧ 16 ∣ sliceLo base h ∧
    base + h * STKSZ < base + (h + 1) * STKSZ ∧
    base + (h + 1) * STKSZ ≤ poolHi base ∧
    sliceLo base h ≤ poolHi base := by
  refine ⟨?_, ?_, ?_, ?_, ?_⟩
  · unfold slicesDisjoint sliceLo sliceHi STKSZ
    rcases Nat.lt_or_ge h hp with hlt | hge
    · left; omega
    · right; omega
  · unfold sliceLo STKSZ
    obtain ⟨k, hk⟩ := hbase
    exact ⟨k + (h + 1) * 4096, by omega⟩
  · unfold STKSZ; omega
  · unfold poolHi STKSZ NCPU
    unfold NCPU at hh
    omega
  · unfold sliceLo poolHi STKSZ NCPU
    unfold NCPU at hh
    omega

/-- Witness for C2's amended theorem at `base = 16`, `h = 0`, `h' = 1`. -/
theorem stack_slices_disjoint_aligned_witness :
    slicesDisjoint 16 0 1 ∧ 16 ∣ sliceLo 16 0 ∧
    16 + 0 * STKSZ < 16 + (0 + 1) * STKSZ ∧
    16 + (0 + 1) * STKSZ ≤ poolHi 16 ∧
    sliceLo 16 0 ≤ poolHi 16 :=
  stack_slices_disjoint_aligned 16 0 1 ⟨1, rfl⟩ (by decide) (by decide) (by decide)

/-! ### Claim C3 -/

/-- Helper: in the spin state (pc at `1: j 1b`, index 6) a step does nothing. -/
theorem step_spin (stack0 : Nat) (t : Regs) (ht : t.pc = 6) :
    step stack0 t = t := by
  simp [step, startCode, ht, execInstr]

/-- Helper: from the spin state, any number of steps stays in the spin state. -/
theorem runSteps_spin (stack0 : Nat) (n : Nat) (t : Regs) (ht : t.pc = 6) :
    runSteps stack0 n t = t := by
  induction n generalizing t with
  | zero => rfl
  | succ n ih => rw [runSteps, step_spin stack0 t ht]; exact ih t ht

/-- C3: running `_start` from entry to the `call main` instruction leaves the
firmware-delivered `a0` (hartid) and `a1` (dtb pointer) unmodified, and sets
`sp` to exactly `stack0 + (hartid + 1) * STKSZ` (given the quantities fit in a
64-bit register); and from the state after `call main` returns (pc at the
self-jump), every further step count leaves the core at the self-jump:
it spins forever rather than falling through. -/
theorem entry_stub_correct (stack0 hartid dtb n : Nat) (s : Regs)
    (h0 : stack0 < WORD) (h1 : dtb < WORD)
    (h2 : stack0 + (hartid + 1) * STKSZ < WORD)
    (hs : s.pc = 6) :
    (runSteps stack0 5 (startEntry hartid dtb)).pc = 5 ∧
    (startCode stack0).get? 5 = some .callMain ∧
    (runSteps stack0 5 (startEntry hartid dtb)).sp = stack0 + (hartid + 1) * STKSZ ∧
    (runSteps stack0 5 (startEntry hartid dtb)).a0 = hartid ∧
    (runSteps stack0 5 (startEntry hartid dtb)).a1 = dtb ∧
    (runSteps stack0 n s).pc = 6 := by
  have hrun : runSteps stack0 5 (startEntry hartid dtb) =
      ⟨hartid, dtb, STKSZ % WORD * ((hartid + 1) % WORD) % WORD, (hartid + 1) % WORD,
        (stack0 % WORD + STKSZ % WORD * ((hartid + 1) % WORD) % WORD) % WORD, 5⟩ := by
    simp [runSteps, step, startCode, execInstr, startEntry]
  refine ⟨by rw [hrun], rfl, ?_, by rw [hrun], by rw [hrun],
    by rw [runSteps_spin stack0 n s hs]; exact hs⟩
  rw [hrun]
  show (stack0 % WORD + STKSZ % WORD * ((hartid + 1) % WORD) % WORD) % WORD
      = stack0 + (hartid + 1) * STKSZ
  unfold WORD STKSZ at *
  omega

/-- Witness for C3 at `stack0 = 16`, `hartid = 1`, `dtb = 2`, with the
post-return state sitting at the self-jump and `3` extra steps taken. -/
theorem entry_stub_correct_witness :
    (runSteps 16 5 (startEntry 1 2)).pc = 5 ∧
    (startCode 16).get? 5 = some .callMain ∧
    (runSteps 16 5 (startEntry 1 2)).sp = 16 + (1 + 1) * STKSZ ∧
    (runSteps 16 5 (startEntry 1 2)).a0 = 1 ∧
    (runSteps 16 5 (startEntry 1 2)).a1 = 2 ∧
    (runSteps 16 3 ⟨0, 0, 0, 0, 0, 6⟩).pc = 6 :=
  entry_stub_correct 16 1 2 3 ⟨0, 0, 0, 0, 0, 6⟩ (by decide) (by decide)
    (by decide) rfl

/-! ### Claims C4, C5, C10 -/

/-- Helper: when every firmware wake succeeds, the loop issues one request per
id in the list other than `boothartid`, in order, and does not panic. -/
theorem wakeLoop_all_ok (fw : Nat → Bool) (b sa : Nat) (hfw : ∀ h, fw h = true)
    (l : List Nat) :
    (wakeLoop fw b sa l).1.map HartStartReq.hartid = l.filter (fun h => h != b) ∧
    (wakeLoop fw b sa l).2 = none := by
  induction l with
  | nil => exact ⟨rfl, rfl⟩
  | cons h hs ih =>
    by_cases hb : h = b
    · simp [wakeLoop, hb, ih]
    · simp [wakeLoop, hb, hfw h, ih]

/-- Helper: dropping one present element from `range n` by filtering leaves
`n - 1` elements. -/
theorem length_filter_range_ne (n b : Nat) (hb : b < n) :
    ((List.range n).filter (fun h => h != b)).length = n - 1 := by
  induction n with
  | zero => omega
  | succ n ih =>
    rw [List.range_succ, List.filter_append, List.length_append]
    by_cases hbn : b = n
    · subst hbn
      have hall : (List.range b).filter (fun h => h != b) = List.range b := by
        apply List.filter_eq_self.mpr
        intro x hx
        have : x < b := List.mem_range.mp hx
        simp
        omega
      simp [hall]
    · have hlt : b < n := by omega
      have hne : (n != b) = true := by simp; omega
      simp [ih hlt, hne]
      omega

/-- C4: when every wake succeeds and `boothartid < ncpu`, `start_harts` issues
exactly `ncpu - 1` hart-start requests, whose target ids are exactly the ids
of `[0, ncpu)` other than `boothartid` (in increasing order), so in particular
no request targets `boothartid`, and no wake panics. -/
theorem wake_all_count_and_targets (fw : Nat → Bool) (boothartid ncpu sa : Nat)
    (hfw : ∀ h, fw h = true) (hb : boothartid < ncpu) :
    (start_harts fw boothartid ncpu sa).1.map HartStartReq.hartid
      = (List.range ncpu).filter (fun h => h != boothartid) ∧
    (start_harts fw boothartid ncpu sa).1.length = ncpu - 1 ∧
    boothartid ∉ (start_harts fw boothartid ncpu sa).1.map HartStartReq.hartid ∧
    (start_harts fw boothartid ncpu sa).2 = none := by
  obtain ⟨hmap, hnone⟩ := wakeLoop_all_ok fw boothartid sa hfw (List.range ncpu)
  unfold start_harts
  refine ⟨hmap, ?_, ?_, hnone⟩
  · have := congrArg List.length hmap
    rw [List.length_map] at this
    rw [this, length_filter_range_ne ncpu boothartid hb]
  · rw [hmap]
    intro hmem
    have := List.of_mem_filter hmem
    simp at this

/-- Witness for C4 at `fw ≡ true`, `boothartid = 0`, `ncpu = 3`, `sa = 42`. -/
theorem wake_all_count_and_targets_witness :
    (start_harts (fun _ => true) 0 3 42).1.map HartStartReq.hartid
      = (List.range 3).filter (fun h => h != 0) ∧
    (start_harts (fun _ => true) 0 3 42).1.length = 3 - 1 ∧
    0 ∉ (start_harts (fun _ => true) 0 3 42).1.map HartStartReq.hartid ∧
    (start_harts (fun _ => true) 0 3 42).2 = none :=
  wake_all_count_and_targets (fun _ => true) 0 3 42 (fun _ => rfl) (by decide)

/-- C10: when `boothartid` lies outside `[0, ncpu)` (and every wake succeeds),
the `h != boothartid` filter removes nothing: `start_harts` issues exactly
`ncpu` requests, one per id of `[0, ncpu)` in order — including every
already-running core's id. -/
theorem wake_all_boot_outside_range (fw : Nat → Bool) (boothartid ncpu sa : Nat)
    (hfw : ∀ h, fw h = true) (hb : ncpu ≤ boothartid) :
    (start_harts fw boothartid ncpu sa).1.map HartStartReq.hartid = List.range ncpu ∧
    (start_harts fw boothartid ncpu sa).1.length = ncpu ∧
    (start_harts fw boothartid ncpu sa).2 = none := by
  obtain ⟨hmap, hnone⟩ := wakeLoop_all_ok fw boothartid sa hfw (List.range ncpu)
  have hall : (List.range ncpu).filter (fun h => h != boothartid) = List.range ncpu := by
    apply List.filter_eq_self.mpr
    intro x hx
    have : x < ncpu := List.mem_range.mp hx
    simp
    omega
  rw [hall] at hmap
  unfold start_harts
  refine ⟨hmap, ?_, hnone⟩
  have := congrArg List.length hmap
  rw [List.length_map] at this
  rw [this, List.length_range]

/-- Witness for C10 at `fw ≡ true`, `boothartid = 5`, `ncpu = 3`, `sa = 42`. -/
theorem wake_all_boot_outside_range_witness :
    (start_harts (fun _ => true) 5 3 42).1.map HartStartReq.hartid = List.range 3 ∧
    (start_harts (fun _ => true) 5 3 42).1.length = 3 ∧
    (start_harts (fun _ => true) 5 3 42).2 = none :=
  wake_all_boot_outside_range (fun _ => true) 5 3 42 (fun _ => rfl) (by decide)

/-! ### Claim C5 -/

/-- Helper: every request the wake loop ever issues (even one whose wake
fails) carries opaque word `0`. -/
theorem wakeLoop_aux_zero (fw : Nat → Bool) (b sa : Nat) (l : List Nat)
    (r : HartStartReq) (hr : r ∈ (wakeLoop fw b sa l).1) : r.aux = 0 := by
  induction l with
  | nil => simp [wakeLoop] at hr
  | cons h hs ih =>
    by_cases hb : h = b
    · rw [wakeLoop] at hr
      simp [hb] at hr
      exact ih hr
    · rw [wakeLoop] at hr
      by_cases hfwh : fw h
      · simp [hb, hfwh] at hr
        rcases hr with hr | hr
        · rw [hr]
        · exact ih hr
      · simp [hb, hfwh] at hr
        rw [hr]

/-- Helper: the effects produced by a successful `handle_dtb` are console
writes only. -/
theorem handle_dtb_no_hartStart (dt : Fdt) (es : List Effect) (n : Nat)
    (req : HartStartReq) (hok : handle_dtb dt = .ok (es, n)) :
    Effect.hartStart req ∉ es := by
  unfold handle_dtb at hok
  cases hm : dt.memoryRegions.head?.map MemoryRegion.starting_address with
  | none => rw [hm] at hok; exact absurd hok (by simp)
  | some mem =>
    rw [hm] at hok
    simp at hok
    obtain ⟨hes, _⟩ := hok
    rw [← hes]
    simp

/-- C5: every `hart_start` request appearing in a boot-hart run of `main`
carries auxiliary (opaque) word `0` — for every boot hart id, every descriptor
pointer `dtb`, every parse outcome and every firmware wake oracle; the
descriptor pointer is never forwarded as the auxiliary argument. -/
theorem wake_requests_aux_zero (parse : Nat → Option Fdt) (fw : Nat → Bool)
    (sa hartid dtb : Nat) (req : HartStartReq)
    (hr : Effect.hartStart req ∈ (mainBoot parse fw sa hartid dtb).1) :
    req.aux = 0 := by
  unfold mainBoot at hr
  cases hp : parse dtb with
  | none =>
    simp only [hp] at hr
    simp [bannerEffects] at hr
  | some dt =>
    simp only [hp] at hr
    cases hdt : handle_dtb dt with
    | error e =>
      simp only [hdt] at hr
      simp [bannerEffects] at hr
    | ok p =>
      obtain ⟨es, ncpus⟩ := p
      simp only [hdt] at hr
      have hrm : Effect.hartStart req ∈
          bannerEffects hartid ++ es ++ [Effect.consoleWrite "\n"]
            ++ (start_harts fw hartid ncpus sa).1.map Effect.hartStart := hr
      rcases List.mem_append.mp hrm with h123 | h4
      · rcases List.mem_append.mp h123 with h12 | h3
        · rcases List.mem_append.mp h12 with h1 | h2
          · simp [bannerEffects] at h1
          · exact absurd h2 (handle_dtb_no_hartStart dt es ncpus req hdt)
        · simp at h3
      · obtain ⟨r2, hr2m, heq⟩ := List.mem_map.mp h4
        have hreq : r2 = req := by injection heq
        rw [← hreq]
        exact wakeLoop_aux_zero fw hartid sa (List.range ncpus) r2 hr2m

/-- Witness for C5 on a concrete run: three cpus, one memory region, boot
hart `0`, all wakes succeeding; the request that woke hart `1` is in the
trace and carries auxiliary word `0`. -/
theorem wake_requests_aux_zero_witness :
    Effect.hartStart ⟨1, 42, 0⟩ ∈
      (mainBoot (fun _ => some ⟨"riscv-virtio", [0, 1, 2], [⟨2147483648, 134217728⟩]⟩)
        (fun _ => true) 42 0 7).1 ∧
    (⟨1, 42, 0⟩ : HartStartReq).aux = 0 :=
  ⟨by decide,
   wake_requests_aux_zero (fun _ => some ⟨"riscv-virtio", [0, 1, 2], [⟨2147483648, 134217728⟩]⟩)
     (fun _ => true) 42 0 7 ⟨1, 42, 0⟩ (by decide)⟩

/-! ### Claim C6 -/

/-- C6: when the parsed device tree enumerates zero memory regions, the
boot-hart branch panics with the fatal diagnostic
`"Unable to locate DRAM start"` and its trace contains no `hart_start`
request whatsoever — the fatal topology signal precedes any wake request. -/
theorem no_memory_region_aborts_before_wake (parse : Nat → Option Fdt)
    (fw : Nat → Bool) (sa hartid dtb : Nat) (dt : Fdt) (req : HartStartReq)
    (hp : parse dtb = some dt) (hm : dt.memoryRegions = []) :
    (mainBoot parse fw sa hartid dtb).2 = some "Unable to locate DRAM start" ∧
    Effect.hartStart req ∉ (mainBoot parse fw sa hartid dtb).1 := by
  have hdt : handle_dtb dt = .error "Unable to locate DRAM start" := by
    unfold handle_dtb
    rw [hm]
    rfl
  constructor
  · unfold mainBoot
    simp only [hp, hdt]
  · unfold mainBoot
    simp only [hp, hdt]
    simp [bannerEffects]

/-- Witness for C6: a device tree with one cpu and an empty memory-region
list panics before any wake; the request form `⟨1, 42, 0⟩` (or any other)
does not appear. -/
theorem no_memory_region_aborts_before_wake_witness :
    (mainBoot (fun _ => some ⟨"m", [0], []⟩) (fun _ => true) 42 0 7).2
      = some "Unable to locate DRAM start" ∧
    Effect.hartStart ⟨1, 42, 0⟩ ∉
      (mainBoot (fun _ => some ⟨"m", [0], []⟩) (fun _ => true) 42 0 7).1 :=
  no_memory_region_aborts_before_wake (fun _ => some ⟨"m", [0], []⟩)
    (fun _ => true) 42 0 7 ⟨"m", [0], []⟩ ⟨1, 42, 0⟩ rfl rfl

/-! ### Claim C7 -/

/-- Helper: a `resolve` sequence starting from a state that has performed at
most one parse, and none while still uncached, performs at most one parse in
total. -/
theorem resolveSeq_parses_le_one (parse : Nat → Option Fdt) (ptrs : List Nat)
    (s : OnceState) (h0 : s.cache = none → s.parses = 0) (h1 : s.parses ≤ 1) :
    (resolveSeq parse s ptrs).parses ≤ 1 := by
  induction ptrs generalizing s with
  | nil => exact h1
  | cons p ps ih =>
    cases hc : s.cache with
    | some dt =>
      rw [resolveSeq]
      simp [resolve, hc]
      exact ih s h0 h1
    | none =>
      have hz : s.parses = 0 := h0 hc
      cases hp : parse p with
      | some dt =>
        rw [resolveSeq]
        simp only [resolve, hc, hp]
        exact ih ⟨some dt, s.parses + 1⟩ (fun h => by cases h)
          (by show s.parses + 1 ≤ 1; omega)
      | none =>
        rw [resolveSeq]
        simp only [resolve, hc, hp]
        show s.parses + 1 ≤ 1
        omega

/-- C7: across any sequence of `resolve` calls on the initially empty
`DEVTREE` cell, with arbitrary (equal or different) pointer arguments, the
underlying parse runs at most once; and any call hitting an initialised cell
returns the cached tree and leaves the cell untouched, regardless of the
pointer supplied. -/
theorem devtree_parse_at_most_once (parse : Nat → Option Fdt) (ptrs : List Nat)
    (s : OnceState) (dt : Fdt) (ptr : Nat) (hc : s.cache = some dt) :
    (resolveSeq parse ⟨none, 0⟩ ptrs).parses ≤ 1 ∧
    resolve parse s ptr = (.ok dt, s) := by
  constructor
  · exact resolveSeq_parses_le_one parse ptrs ⟨none, 0⟩ (fun _ => rfl)
      (by show (0 : Nat) ≤ 1; decide)
  · simp [resolve, hc]

/-- Witness for C7: three calls with three different pointers parse once;
a call on a cell caching `dt0` returns `dt0` unchanged even for a fresh
pointer. -/
theorem devtree_parse_at_most_once_witness :
    (resolveSeq (fun _ => some ⟨"m", [0], []⟩) ⟨none, 0⟩ [1, 2, 3]).parses ≤ 1 ∧
    resolve (fun _ => some ⟨"m", [0], []⟩)
      ⟨some ⟨"other", [0, 1], []⟩, 1⟩ 99
      = (.ok ⟨"other", [0, 1], []⟩, ⟨some ⟨"other", [0, 1], []⟩, 1⟩) :=
  devtree_parse_at_most_once (fun _ => some ⟨"m", [0], []⟩) [1, 2, 3]
    ⟨some ⟨"other", [0, 1], []⟩, 1⟩ ⟨"other", [0, 1], []⟩ 99 rfl

/-! ### Claim C8 -/

/-- Helper: feeding any chunks into a buffer that is within capacity keeps it
within capacity. -/
theorem foldl_write_str_le (chunks : List (List Nat)) (buf : List Nat)
    (h : buf.length ≤ CONSOLE_CAP) :
    (chunks.foldl write_str buf).length ≤ CONSOLE_CAP := by
  induction chunks generalizing buf with
  | nil => exact h
  | cons c cs ih =>
    rw [List.foldl_cons]
    apply ih
    unfold write_str
    by_cases hfit : buf.length + c.length ≤ CONSOLE_CAP
    · simp [hfit]
    · simp [hfit]
      exact h

/-- C8: the buffer capacity is 255 bytes; for every message (any chunk
sequence, including one rendering to more than 255 bytes) the rendered buffer
holds at most 255 bytes — over-long content is cut down to what fits rather
than written past the buffer — and the console-write request is still issued,
with a byte count equal to the buffer length and hence never exceeding 255. -/
theorem console_write_bounded (chunks : List (List Nat)) (addr : Nat) :
    CONSOLE_CAP = 255 ∧
    (renderMessage chunks).length ≤ 255 ∧
    (debug_print chunks addr).num_bytes = (renderMessage chunks).length ∧
    (debug_print chunks addr).num_bytes ≤ 255 := by
  have hb : (renderMessage chunks).length ≤ CONSOLE_CAP :=
    foldl_write_str_le chunks [] (by simp [CONSOLE_CAP])
  have hcap : CONSOLE_CAP = 255 := rfl
  rw [hcap] at hb
  exact ⟨hcap, hb, rfl, hb⟩

/-! ### Claim C9 -/

/-- C9: on any unrecoverable fault the panic handler emits exactly one console
message, of the form `<message> in <file> at line <line>`; and when no source
location is available the file is reported as `{unknown}` and the line as `0`,
the report still being emitted. -/
theorem panic_report_format (info : PanicInfo) :
    (panicEmits info).length = 1 ∧
    panicEmits info = [info.message ++ " in " ++ panicFile info ++ " at line "
      ++ toString (panicLine info) ++ "\n"] ∧
    (info.location = none →
      panicFile info = "\x7bunknown\x7d" ∧ panicLine info = 0) := by
  refine ⟨rfl, rfl, ?_⟩
  intro h
  simp [panicFile, panicLine, h]

/-- Witness for C9 at a fault with no location metadata. -/
theorem panic_report_format_witness :
    (panicEmits ⟨"boom", none⟩).length = 1 ∧
    panicEmits ⟨"boom", none⟩ = [(⟨"boom", none⟩ : PanicInfo).message ++ " in "
      ++ panicFile ⟨"boom", none⟩ ++ " at line "
      ++ toString (panicLine ⟨"boom", none⟩) ++ "\n"] ∧
    ((⟨"boom", none⟩ : PanicInfo).location = none →
      panicFile ⟨"boom", none⟩ = "\x7bunknown\x7d" ∧ panicLine ⟨"boom", none⟩ = 0) :=
  panic_report_format ⟨"boom", none⟩

end RiscvSbi
